import Mathlib

/-!
Verification development for the intraday tick visualizer's ingestion and
query subsystem.  The definitions below are a shallow embedding of the
TypeScript source: the drizzle `stock_ticks` table becomes a list of rows
plus a serial counter, the handlers' query/upsert loops become pure Lean
functions, and the try/catch error flow of the handlers is modelled with
`Except` and explicit outcomes for the fallible database collaborator.
Prices are modelled as integers scaled to the fixed 4-digit precision of
the numeric columns; timestamps are integers (epoch milliseconds).
-/

/-- One stored row of the `stock_ticks` table (src/server/src/index.ts,
`stockTicksTable`): serial id, symbol, timestamp, OHLC numeric columns,
volume, interval and created_at. -/
structure StockTick where
  id : Nat
  symbol : String
  timestamp : Int
  open_ : Int
  high : Int
  low : Int
  close : Int
  volume : Int
  interval : String
  created_at : Int
deriving DecidableEq, Repr

/-- A freshly fetched point about to be upserted for one symbol/interval:
the result of mapping provider data to the StockTick insert shape
(`ticksToUpsert` in the handlers), before an id or created_at exists. -/
structure TickPoint where
  symbol : String
  timestamp : Int
  open_ : Int
  high : Int
  low : Int
  close : Int
  volume : Int
  interval : String
deriving DecidableEq, Repr

/-- The database table state: its rows in insertion order together with the
next value of the `serial` id column. -/
structure TickStore where
  rows : List StockTick
  nextId : Nat
deriving DecidableEq, Repr

/-- The natural key of a stored row: (symbol, timestamp, interval). -/
def natKey (t : StockTick) : String × Int × String :=
  (t.symbol, t.timestamp, t.interval)

/-- `convertIntervalToPostgres` from
src/server/src/handlers/get_historical_data.ts: interval token to a
PostgreSQL interval literal, unknown tokens pass through. -/
def convertIntervalToPostgres (interval : String) : String :=
  match interval with
  | "1m" => "00:01:00"
  | "2m" => "00:02:00"
  | "5m" => "00:05:00"
  | "15m" => "00:15:00"
  | "30m" => "00:30:00"
  | "60m" => "01:00:00"
  | "90m" => "01:30:00"
  | "1h" => "01:00:00"
  | "1d" => "1 day"
  | "5d" => "5 days"
  | "1wk" => "7 days"
  | "1mo" => "1 month"
  | "3mo" => "3 months"
  | _ => interval

/-- `convertIntervalFromPostgres` from get_historical_data.ts: PostgreSQL
interval literal back to the token, unknown values pass through. -/
def convertIntervalFromPostgres (pgInterval : String) : String :=
  match pgInterval with
  | "00:01:00" => "1m"
  | "00:02:00" => "2m"
  | "00:05:00" => "5m"
  | "00:15:00" => "15m"
  | "00:30:00" => "30m"
  | "01:00:00" => "1h"
  | "01:30:00" => "90m"
  | "1 day" => "1d"
  | "5 days" => "5d"
  | "7 days" => "1wk"
  | "1 month" => "1mo"
  | "3 months" => "3mo"
  | _ => pgInterval

/-- The `intervalMapping` lookup table of
src/server/src/handlers/get_latest_prices.ts with an explicit fallback
argument, since the code writes `intervalMapping[dbInterval] || fallback`
with two different fallbacks (the raw db value on the read path, the
original token on the upsert return path). -/
def intervalMappingGetD (dbInterval fallback : String) : String :=
  match dbInterval with
  | "00:01:00" => "1m"
  | "00:02:00" => "2m"
  | "00:05:00" => "5m"
  | "00:15:00" => "15m"
  | "00:30:00" => "30m"
  | "01:00:00" => "1h"
  | "01:30:00" => "90m"
  | "1 day" => "1d"
  | "5 days" => "5d"
  | "7 days" => "1wk"
  | "1 mon" => "1mo"
  | "3 mons" => "3mo"
  | _ => fallback

/-- `intervalMapping[dbInterval] || dbInterval` as used on the read path of
`getLatestPrices`. -/
def intervalMappingGet (dbInterval : String) : String :=
  intervalMappingGetD dbInterval dbInterval

/-- `reverseIntervalMapping` from get_latest_prices.ts: identity on every
token except the 60-minute token, which is stored as the hour token. -/
def reverseIntervalMapping (interval : String) : String :=
  match interval with
  | "60m" => "1h"
  | _ => interval

/-- `normalizeInterval` from src/unnamed/part_004 (batch fetch handler):
database interval back to the original token, unknown values pass
through; this table decodes the one-hour representation to "60m". -/
def normalizeInterval (dbInterval : String) : String :=
  match dbInterval with
  | "00:01:00" => "1m"
  | "00:02:00" => "2m"
  | "00:05:00" => "5m"
  | "00:15:00" => "15m"
  | "00:30:00" => "30m"
  | "01:00:00" => "60m"
  | "01:30:00" => "90m"
  | "1 day" => "1d"
  | "5 days" => "5d"
  | "7 days" => "1wk"
  | "1 mon" => "1mo"
  | "3 mons" => "3mo"
  | _ => dbInterval

/-- The closed set of interval tokens of the `intervalEnum`
(src/server/src/index.ts). -/
def intervalTokens : List String :=
  ["1m", "2m", "5m", "15m", "30m", "60m", "90m", "1h", "1d", "5d", "1wk", "1mo", "3mo"]

/-- Overwrite only the mutable price/volume columns of a stored row, as the
`.set(...)` update statements of all three upsert loops do; symbol,
timestamp, interval, id and created_at are untouched. -/
def setVals (p : TickPoint) (t : StockTick) : StockTick :=
  { t with open_ := p.open_, high := p.high, low := p.low,
           close := p.close, volume := p.volume }

/-- The row produced by an insert statement: values from the point, the
interval run through the storage encoding of the path, the serial id and
the created_at default. -/
def mkTick (enc : String → String) (now : Int) (rid : Nat) (p : TickPoint) : StockTick :=
  { id := rid, symbol := p.symbol, timestamp := p.timestamp,
    open_ := p.open_, high := p.high, low := p.low, close := p.close,
    volume := p.volume, interval := enc p.interval, created_at := now }

/-- The natural key a point occupies in storage after its interval is
encoded by the path's translation table. -/
def encKey (enc : String → String) (p : TickPoint) : String × Int × String :=
  (p.symbol, p.timestamp, enc p.interval)

/-- Check-then-insert-or-update upsert of one point, updating by the id of
the first row found — the loop body shared by `fetchStockData`
(src/unnamed/part_007, where the interval is stored raw) and
`upsertStockTicks` of get_latest_prices.ts (where the interval is stored
through `reverseIntervalMapping`). -/
def upsertPoint (enc : String → String) (now : Int) (p : TickPoint) (s : TickStore) : TickStore :=
  match s.rows.filter (fun r => natKey r = encKey enc p) with
  | [] => { rows := s.rows ++ [mkTick enc now s.nextId p], nextId := s.nextId + 1 }
  | r :: _ =>
      { rows := s.rows.map (fun t => if t.id = r.id then setVals p t else t),
        nextId := s.nextId }

/-- Check-then-insert-or-update upsert of one point, updating by natural
key — the loop body of `fetchStockDataForSymbol` (src/unnamed/part_004),
which stores the interval raw. -/
def upsertPointByKey (now : Int) (p : TickPoint) (s : TickStore) : TickStore :=
  match s.rows.filter (fun r => natKey r = encKey (fun i => i) p) with
  | [] => { rows := s.rows ++ [mkTick (fun i => i) now s.nextId p], nextId := s.nextId + 1 }
  | _ :: _ =>
      { rows := s.rows.map
          (fun t => if natKey t = encKey (fun i => i) p then setVals p t else t),
        nextId := s.nextId }

/-- One upsert step of any of the three caller-facing ingestion paths:
`fetchStockData` (part_007), `fetchStockDataForSymbol` (part_004, batch
path) and the refresh upsert of `getLatestPrices`. -/
inductive UpsertOp where
  | fetchStore (now : Int) (p : TickPoint)
  | batchStore (now : Int) (p : TickPoint)
  | refreshStore (now : Int) (p : TickPoint)
deriving DecidableEq, Repr

/-- Apply one upsert operation to the store. -/
def applyOp : UpsertOp → TickStore → TickStore
  | .fetchStore now p, s => upsertPoint (fun i => i) now p s
  | .batchStore now p, s => upsertPointByKey now p s
  | .refreshStore now p, s => upsertPoint reverseIntervalMapping now p s

/-- Apply a sequence of upsert operations left to right. -/
def applyOps (ops : List UpsertOp) (s : TickStore) : TickStore :=
  ops.foldl (fun st op => applyOp op st) s

/-- At most one row per natural key: no two distinct stored rows share the
(symbol, timestamp, interval) triple. -/
def UniqueKeys (s : TickStore) : Prop :=
  (s.rows.map natKey).Nodup

instance (s : TickStore) : Decidable (UniqueKeys s) :=
  List.nodupDecidable (s.rows.map natKey)

/-- All stored rows holding a given natural key. -/
def rowsFor (k : String × Int × String) (s : TickStore) : List StockTick :=
  s.rows.filter (fun r => natKey r = k)

/-- The mutable OHLCV columns of a stored row. -/
def ohlcvOf (t : StockTick) : Int × Int × Int × Int × Int :=
  (t.open_, t.high, t.low, t.close, t.volume)

/-- The OHLCV values carried by a fetched point. -/
def pointVals (p : TickPoint) : Int × Int × Int × Int × Int :=
  (p.open_, p.high, p.low, p.close, p.volume)

/-- The parsed `getHistoricalDataInputSchema` record (src/unnamed/part_000),
the filter shape shared by `getHistoricalData` and `getChartData`:
optional symbol, interval, optional inclusive date bounds, limit. -/
structure GetHistoricalDataInput where
  symbol : Option String
  interval : String
  startDate : Option Int
  endDate : Option Int
  limit : Nat
deriving DecidableEq, Repr

/-- The optional-symbol condition (`if (input.symbol) conditions.push(...)`). -/
def matchesSym (sym : Option String) (t : StockTick) : Bool :=
  match sym with
  | some s => t.symbol = s
  | none => true

/-- The optional inclusive date-range conditions (`gte`/`lte` on timestamp). -/
def matchesRange (sd ed : Option Int) (t : StockTick) : Bool :=
  (match sd with
   | some d => d ≤ t.timestamp
   | none => true) &&
  (match ed with
   | some d => t.timestamp ≤ d
   | none => true)

/-- Stable insertion of a row into a timestamp-descending list, placing the
new row after all rows with a timestamp at least as large. -/
def insertByTsDesc (t : StockTick) : List StockTick → List StockTick
  | [] => [t]
  | x :: xs => if t.timestamp ≤ x.timestamp then x :: insertByTsDesc t xs else t :: x :: xs

/-- `ORDER BY timestamp DESC` over a row list. -/
def sortByTsDesc (l : List StockTick) : List StockTick :=
  l.foldr insertByTsDesc []

/-- The full WHERE conjunction built by `getHistoricalData`
(src/server/src/handlers/get_historical_data.ts): optional symbol
equality, interval equality against the `convertIntervalToPostgres`
encoding of the input token, and the optional date bounds. -/
def matchesHistorical (inp : GetHistoricalDataInput) (t : StockTick) : Bool :=
  matchesSym inp.symbol t &&
  (t.interval = convertIntervalToPostgres inp.interval) &&
  matchesRange inp.startDate inp.endDate t

/-- The row set produced by `getHistoricalData`'s select: filter, order by
timestamp descending, truncate to the limit. -/
def selectHistorical (inp : GetHistoricalDataInput) (s : TickStore) : List StockTick :=
  (sortByTsDesc (s.rows.filter (matchesHistorical inp))).take inp.limit

/-- The per-row read conversion of `getHistoricalData`: numeric columns
parsed (identity in this model) and the interval decoded through
`convertIntervalFromPostgres`. -/
def decodeHistTick (t : StockTick) : StockTick :=
  { t with interval := convertIntervalFromPostgres t.interval }

/-- `getHistoricalData` as a pure function of the store. -/
def getHistoricalData (inp : GetHistoricalDataInput) (s : TickStore) : List StockTick :=
  (selectHistorical inp s).map decodeHistTick

/-- The WHERE conjunction built by `getChartData` (src/unnamed/part_005):
identical to the historical one except that the interval is compared
against the raw input token, with no encoding. -/
def matchesChart (inp : GetHistoricalDataInput) (t : StockTick) : Bool :=
  matchesSym inp.symbol t &&
  (t.interval = inp.interval) &&
  matchesRange inp.startDate inp.endDate t

/-- The row set produced by `getChartData`'s select: filter, order by
timestamp descending, truncate to the limit. -/
def selectChart (inp : GetHistoricalDataInput) (s : TickStore) : List StockTick :=
  (sortByTsDesc (s.rows.filter (matchesChart inp))).take inp.limit

/-- One D3 candlestick point (`candlestickDataPointSchema`). -/
structure CandlestickDataPoint where
  timestamp : Int
  open_ : Int
  high : Int
  low : Int
  close : Int
  volume : Int
deriving DecidableEq, Repr

/-- The projection of a stored row to a chart point, discarding symbol,
interval, id and created_at. -/
def toCandle (t : StockTick) : CandlestickDataPoint :=
  { timestamp := t.timestamp, open_ := t.open_, high := t.high,
    low := t.low, close := t.close, volume := t.volume }

/-- The `chartDataResponseSchema` record. -/
structure ChartDataResponse where
  symbol : String
  interval : String
  data : List CandlestickDataPoint
deriving DecidableEq, Repr

/-- One raw provider sample (`yahooFinanceDataSchema`): epoch seconds and
OHLCV. -/
structure YahooFinanceData where
  timestamp : Int
  open_ : Int
  high : Int
  low : Int
  close : Int
  volume : Int
deriving DecidableEq, Repr

/-- `transformYahooData` of part_005: provider samples to insert-shaped
points for the requested symbol/interval, epoch seconds scaled to
milliseconds. -/
def transformYahooData (ys : List YahooFinanceData) (symbol interval : String) : List TickPoint :=
  ys.map (fun y =>
    { symbol := symbol, timestamp := y.timestamp * 1000, open_ := y.open_,
      high := y.high, low := y.low, close := y.close, volume := y.volume,
      interval := interval })

/-- A plain `db.insert(...).values(tick)` against the schema of
src/server/src/index.ts.  The natural-key index `stock_ticks_unique_idx`
is declared there with `index(...)`, which is non-unique, so the insert
succeeds unconditionally and simply appends a row. -/
def insertRow (now : Int) (p : TickPoint) (s : TickStore) : TickStore :=
  { rows := s.rows ++ [mkTick (fun i => i) now s.nextId p], nextId := s.nextId + 1 }

/-- The `upsertStockTicks` of part_005 (chart fallback): a bare insert per
point; its catch for duplicate-key errors is unreachable because the
schema enforces no uniqueness, so every point is appended. -/
def chartUpsertTicks (now : Int) (ps : List TickPoint) (s : TickStore) : TickStore :=
  ps.foldl (fun st p => insertRow now p st) s

/-- `getChartData` of part_005 as a pure function: the provider's response
for the (at most one) fallback fetch is passed in, and the result carries
the response, the final store and the number of provider calls made. -/
def getChartData (prov : List YahooFinanceData) (now : Int) (inp : GetHistoricalDataInput)
    (s : TickStore) : ChartDataResponse × TickStore × Nat :=
  let results := selectChart inp s
  match inp.symbol, results with
  | some sym, [] =>
      let ticks := transformYahooData prov sym inp.interval
      let s2 := chartUpsertTicks now ticks s
      let newResults := selectChart inp s2
      ({ symbol := sym, interval := inp.interval, data := newResults.map toCandle }, s2, 1)
  | none, [] =>
      ({ symbol := "AAPL", interval := inp.interval, data := [] }, s, 0)
  | _, r :: _ =>
      ({ symbol := inp.symbol.getD r.symbol, interval := inp.interval,
         data := results.map toCandle }, s, 0)

/-- Maximum of a list of integers, `none` on the empty list. -/
def maxIntOf : List Int → Option Int
  | [] => none
  | x :: xs =>
      match maxIntOf xs with
      | none => some x
      | some m => some (max x m)

/-- The grouped subquery of `getLatestPrices`: the maximum timestamp among
the rows of one symbol, across all intervals. -/
def maxTsFor (sym : String) (rows : List StockTick) : Option Int :=
  maxIntOf ((rows.filter (fun t => t.symbol = sym)).map (fun t => t.timestamp))

/-- A row is a latest row for its symbol: it is stored and no stored row of
the same symbol has a larger timestamp. -/
def IsLatestFor (s : TickStore) (t : StockTick) : Prop :=
  t ∈ s.rows ∧ ∀ u ∈ s.rows, u.symbol = t.symbol → u.timestamp ≤ t.timestamp

/-- The per-row read conversion of `getLatestPrices`: numeric parse
(identity here) and interval decoded by `intervalMapping` with the raw
db value as fallback. -/
def decodeLatestTick (t : StockTick) : StockTick :=
  { t with interval := intervalMappingGet t.interval }

/-- The join of `getLatestPrices`: rows whose timestamp equals their
symbol's grouped maximum, ordered by timestamp descending. -/
def getLatestPricesRows (s : TickStore) : List StockTick :=
  sortByTsDesc (s.rows.filter (fun t => maxTsFor t.symbol s.rows = some t.timestamp))

/-- `getLatestPrices(false)` as a pure function of the store: the join
result with each row's interval decoded for the caller. -/
def getLatestPrices (s : TickStore) : List StockTick :=
  (getLatestPricesRows s).map decodeLatestTick

/-- The store prepared by the `getHistoricalData` test suite
(src/server/src/tests/get_historical_data.test.ts): AAPL 5m rows 30 and
25 minutes back, a META 5m row 20 minutes back and an AAPL 1m row 15
minutes back, inserted directly with the raw interval tokens of the
schema enum.  Timestamps are minutes relative to the test's `now`. -/
def historicalTestStore : TickStore :=
  { rows :=
      [ { id := 1, symbol := "AAPL", timestamp := -30, open_ := 1755000, high := 1760000,
          low := 1750000, close := 1757500, volume := 1000000, interval := "5m", created_at := 0 },
        { id := 2, symbol := "AAPL", timestamp := -25, open_ := 1757500, high := 1762500,
          low := 1752500, close := 1760000, volume := 1200000, interval := "5m", created_at := 0 },
        { id := 3, symbol := "META", timestamp := -20, open_ := 3000000, high := 3010000,
          low := 2995000, close := 3005000, volume := 800000, interval := "5m", created_at := 0 },
        { id := 4, symbol := "AAPL", timestamp := -15, open_ := 1760000, high := 1765000,
          low := 1755000, close := 1762500, volume := 900000, interval := "1m", created_at := 0 } ],
    nextId := 5 }

/-- A store holding two rows of one symbol that share the maximum
timestamp under different intervals. -/
def tieStore : TickStore :=
  { rows :=
      [ { id := 1, symbol := "AAPL", timestamp := 100, open_ := 10, high := 20,
          low := 5, close := 15, volume := 1000, interval := "1m", created_at := 0 },
        { id := 2, symbol := "AAPL", timestamp := 100, open_ := 11, high := 21,
          low := 6, close := 16, volume := 1100, interval := "5m", created_at := 0 } ],
    nextId := 3 }

/-- The stored row that `fetchStockDataForSymbol`'s loop reads back after
upserting one point (`result = updated[0]` or `inserted[0]`). -/
def upsertByKeyResult (now : Int) (p : TickPoint) (s : TickStore) : StockTick :=
  match s.rows.filter (fun r => natKey r = encKey (fun i => i) p) with
  | [] => mkTick (fun i => i) now s.nextId p
  | r :: _ => setVals p r

/-- The read conversion applied to each upserted row by part_004:
`normalizeInterval` on the stored interval. -/
def decodeBatchTick (t : StockTick) : StockTick :=
  { t with interval := normalizeInterval t.interval }

/-- The per-point upsert loop of `fetchStockDataForSymbol` (part_004) with
the fallible single-row database operation abstracted by the `fails`
oracle: a failing point is caught, logged and skipped (store untouched by
it), and the loop continues; successfully stored rows are accumulated. -/
def batchUpsertLoop (fails : TickPoint → Bool) (now : Int) :
    List TickPoint → TickStore → TickStore × List StockTick
  | [], s => (s, [])
  | p :: ps, s =>
      if fails p then batchUpsertLoop fails now ps s
      else
        let t := decodeBatchTick (upsertByKeyResult now p s)
        let s2 := upsertPointByKey now p s
        let rec' := batchUpsertLoop fails now ps s2
        (rec'.1, t :: rec'.2)

/-- The stored row read back by the refresh upsert of get_latest_prices.ts
after one point. -/
def upsertRefreshResult (now : Int) (p : TickPoint) (s : TickStore) : StockTick :=
  match s.rows.filter (fun r => natKey r = encKey reverseIntervalMapping p) with
  | [] => mkTick reverseIntervalMapping now s.nextId p
  | r :: _ => setVals p r

/-- The read conversion of the refresh upsert: `intervalMapping` with the
point's original token as fallback. -/
def decodeRefreshTick (p : TickPoint) (t : StockTick) : StockTick :=
  { t with interval := intervalMappingGetD t.interval p.interval }

/-- The per-point upsert loop of `upsertStockTicks` in get_latest_prices.ts
with the fallible single-row operation abstracted by the `fails` oracle:
its catch block logs and rethrows, so the first failing point aborts the
loop and the error escapes to the caller. -/
def refreshUpsertLoop (fails : TickPoint → Bool) (now : Int) :
    List TickPoint → TickStore → Except Unit (TickStore × List StockTick)
  | [], s => .ok (s, [])
  | p :: ps, s =>
      if fails p then .error ()
      else
        let t := decodeRefreshTick p (upsertRefreshResult now p s)
        let s2 := upsertPoint reverseIntervalMapping now p s
        match refreshUpsertLoop fails now ps s2 with
        | .error e => .error e
        | .ok (s3, ts) => .ok (s3, t :: ts)

/-- A store-level (connectivity/persistence) failure. -/
inductive StoreErr where
  | connectivity
deriving DecidableEq, Repr

/-- Error skeleton of `getHistoricalData`: the outcome of the database
select is passed in; the handler's catch block logs and rethrows. -/
def getHistoricalDataE (q : Except StoreErr (List StockTick)) :
    Except StoreErr (List StockTick) :=
  match q with
  | .error e => .error e
  | .ok rows => .ok (rows.map decodeHistTick)

/-- Error skeleton of `getLatestPrices`: the outcome of the aggregation
query is passed in; the handler's catch block logs and rethrows. -/
def getLatestPricesE (q : Except StoreErr (List StockTick)) :
    Except StoreErr (List StockTick) :=
  match q with
  | .error e => .error e
  | .ok rows => .ok (rows.map decodeLatestTick)

/-- Error skeleton of the upsert loop of `fetchStockData` (part_007): each
point's single-row upsert outcome is given by `res`; the loop has no
per-point catch, so the first error aborts the remaining points and the
handler's outer catch rethrows it. -/
def fetchUpsertLoopE (res : TickPoint → Except StoreErr StockTick) :
    List TickPoint → Except StoreErr (List StockTick)
  | [] => .ok []
  | p :: ps =>
      match res p with
      | .error e => .error e
      | .ok t =>
          match fetchUpsertLoopE res ps with
          | .error e => .error e
          | .ok ts => .ok (t :: ts)

/-- Error skeleton of `getChartData`: `q1` is the outcome of the main
select and `qr` the outcome of the fallback's re-query.  A failure of the
main select reaches the outer catch and is rethrown; any failure inside
the fallback's try block is caught, logged, and control falls through to
the empty-response branch. -/
def getChartDataE (q1 qr : Except StoreErr (List StockTick))
    (inp : GetHistoricalDataInput) : Except StoreErr ChartDataResponse :=
  match q1 with
  | .error e => .error e
  | .ok results =>
      match inp.symbol, results with
      | some sym, [] =>
          match qr with
          | .error _ => .ok { symbol := sym, interval := inp.interval, data := [] }
          | .ok newResults =>
              .ok { symbol := sym, interval := inp.interval, data := newResults.map toCandle }
      | none, [] => .ok { symbol := "AAPL", interval := inp.interval, data := [] }
      | _, r :: _ =>
          .ok { symbol := inp.symbol.getD r.symbol, interval := inp.interval,
                data := results.map toCandle }

instance (s : TickStore) (t : StockTick) : Decidable (IsLatestFor s t) :=
  inferInstanceAs (Decidable (t ∈ s.rows ∧ ∀ u ∈ s.rows, u.symbol = t.symbol → u.timestamp ≤ t.timestamp))

/-- The latest-price test scenario of the spec and test suite: AAPL and
META each hold a tick 60 minutes back and one at the reference time 0. -/
def latestScenarioStore : TickStore :=
  { rows :=
      [ { id := 1, symbol := "AAPL", timestamp := -60, open_ := 1500000, high := 1550000,
          low := 1490000, close := 1540000, volume := 1000000, interval := "1m", created_at := 0 },
        { id := 2, symbol := "META", timestamp := -60, open_ := 3000000, high := 3100000,
          low := 2950000, close := 3050000, volume := 800000, interval := "1m", created_at := 0 },
        { id := 3, symbol := "AAPL", timestamp := 0, open_ := 1550000, high := 1600000,
          low := 1540000, close := 1590000, volume := 1200000, interval := "1m", created_at := 0 },
        { id := 4, symbol := "META", timestamp := 0, open_ := 3050000, high := 3150000,
          low := 3000000, close := 3100000, volume := 900000, interval := "1m", created_at := 0 } ],
    nextId := 5 }

theorem natKey_setVals (p : TickPoint) (t : StockTick) : natKey (setVals p t) = natKey t := rfl

theorem natKey_mkTick (enc : String → String) (now : Int) (rid : Nat) (p : TickPoint) :
    natKey (mkTick enc now rid p) = encKey enc p := rfl

theorem keys_map_of_preserving (rows : List StockTick) (g : StockTick → StockTick)
    (h : ∀ t, natKey (g t) = natKey t) :
    (rows.map g).map natKey = rows.map natKey := by
  rw [List.map_map]
  have hg : natKey ∘ g = natKey := funext h
  rw [hg]

theorem encKey_not_mem_of_filter_nil (k : String × Int × String) (rows : List StockTick)
    (hf : rows.filter (fun r => natKey r = k) = []) :
    k ∉ rows.map natKey := by
  intro hk
  obtain ⟨a, ha, hak⟩ := List.mem_map.mp hk
  have := List.filter_eq_nil_iff.mp hf a ha
  simp only [decide_eq_true_eq] at this
  exact this hak

theorem uniqueKeys_append_fresh (rows : List StockTick) (t : StockTick)
    (hnd : (rows.map natKey).Nodup) (hmem : natKey t ∉ rows.map natKey) :
    ((rows ++ [t]).map natKey).Nodup := by
  rw [List.map_append, List.nodup_append]
  refine ⟨hnd, List.nodup_singleton _, ?_⟩
  intro x hx hx'
  rw [List.map_singleton, List.mem_singleton] at hx'
  exact hmem (hx' ▸ hx)

theorem uniqueKeys_upsertPoint (enc : String → String) (now : Int) (p : TickPoint)
    (s : TickStore) (h : UniqueKeys s) : UniqueKeys (upsertPoint enc now p s) := by
  unfold UniqueKeys upsertPoint at *
  split
  case _ hf =>
    exact uniqueKeys_append_fresh s.rows _ h
      (encKey_not_mem_of_filter_nil (encKey enc p) s.rows hf)
  case _ r rest hf =>
    have := keys_map_of_preserving s.rows
      (fun t => if t.id = r.id then setVals p t else t)
      (by intro t; by_cases ht : t.id = r.id <;> simp [ht, natKey_setVals])
    simpa [this] using h

theorem uniqueKeys_upsertPointByKey (now : Int) (p : TickPoint)
    (s : TickStore) (h : UniqueKeys s) : UniqueKeys (upsertPointByKey now p s) := by
  unfold UniqueKeys upsertPointByKey at *
  split
  case _ hf =>
    exact uniqueKeys_append_fresh s.rows _ h
      (encKey_not_mem_of_filter_nil (encKey (fun i => i) p) s.rows hf)
  case _ r rest hf =>
    have := keys_map_of_preserving s.rows
      (fun t => if natKey t = encKey (fun i => i) p then setVals p t else t)
      (by intro t; by_cases ht : natKey t = encKey (fun i => i) p <;>
            simp [ht, natKey_setVals])
    simpa [this] using h

theorem uniqueKeys_applyOp (op : UpsertOp) (s : TickStore)
    (h : UniqueKeys s) : UniqueKeys (applyOp op s) := by
  cases op with
  | fetchStore now p => exact uniqueKeys_upsertPoint _ now p s h
  | batchStore now p => exact uniqueKeys_upsertPointByKey now p s h
  | refreshStore now p => exact uniqueKeys_upsertPoint _ now p s h

/-- C1. Natural-key uniqueness invariant: every sequence of upsert
operations drawn from `fetchStockData`, the batch path
`fetchStockDataForSymbol`, and the refresh upsert of `getLatestPrices`,
applied to a store with at most one row per (symbol, timestamp, interval)
triple, leaves a store with at most one row per triple; since the sequence
is arbitrary, every intermediate store along the way also satisfies the
invariant ("at all times"). -/
theorem naturalKey_uniqueness_invariant (ops : List UpsertOp) (s : TickStore)
    (h : UniqueKeys s) : UniqueKeys (applyOps ops s) := by
  induction ops generalizing s with
  | nil => exact h
  | cons op rest ih => exact ih (applyOp op s) (uniqueKeys_applyOp op s h)

/-- Witness for C1: the invariant theorem applied to a concrete run that
exercises all three upsert paths, with a repeated natural key. -/
theorem naturalKey_uniqueness_invariant_witness :
    UniqueKeys (applyOps
      [ .fetchStore 10 ⟨"AAPL", 100, 1500000, 1510000, 1490000, 1505000, 1000, "1m"⟩,
        .refreshStore 11 ⟨"AAPL", 100, 1501000, 1511000, 1491000, 1506000, 1100, "1m"⟩,
        .batchStore 12 ⟨"META", 100, 3000000, 3010000, 2990000, 3005000, 800, "5m"⟩,
        .fetchStore 13 ⟨"AAPL", 100, 1502000, 1512000, 1492000, 1507000, 1200, "1m"⟩ ]
      { rows := [], nextId := 1 }) :=
  naturalKey_uniqueness_invariant _ _ (by decide)

theorem filter_map_comm (g : StockTick → StockTick) (q : StockTick → Bool)
    (hq : ∀ t, q (g t) = q t) (l : List StockTick) :
    (l.map g).filter q = (l.filter q).map g := by
  induction l with
  | nil => rfl
  | cons a l ih =>
    by_cases h : q a
    · simp [List.filter_cons, hq a, h, ih]
    · simp [List.filter_cons, hq a, h, ih]

theorem rowsFor_tail_nil (k : String × Int × String) (s : TickStore) (hU : UniqueKeys s)
    (r : StockTick) (rest : List StockTick) (hf : rowsFor k s = r :: rest) : rest = [] := by
  have hsub : List.Sublist ((s.rows.filter (fun t => natKey t = k)).map natKey)
      (s.rows.map natKey) :=
    (List.filter_sublist _).map natKey
  have hnd : ((s.rows.filter (fun t => natKey t = k)).map natKey).Nodup :=
    List.Nodup.sublist hsub hU
  rw [show s.rows.filter (fun t => natKey t = k) = rowsFor k s from rfl, hf] at hnd
  cases rest with
  | nil => rfl
  | cons y ys =>
    exfalso
    have hy : y ∈ rowsFor k s := by
      rw [hf]; exact List.mem_cons_of_mem r (List.mem_cons_self y ys)
    have hr : r ∈ rowsFor k s := by rw [hf]; exact List.mem_cons_self r _
    have hyk : natKey y = k := by
      have := (List.mem_filter.mp hy).2
      simpa using this
    have hrk : natKey r = k := by
      have := (List.mem_filter.mp hr).2
      simpa using this
    simp only [List.map_cons, List.nodup_cons, List.mem_cons, List.mem_map] at hnd
    exact hnd.1 (Or.inl (hrk.trans hyk.symm))

theorem upsertPoint_rowsFor (enc : String → String) (now : Int) (p : TickPoint)
    (s : TickStore) (hU : UniqueKeys s) :
    ∃ t, rowsFor (encKey enc p) (upsertPoint enc now p s) = [t] ∧ ohlcvOf t = pointVals p := by
  unfold upsertPoint
  split
  case _ hf =>
    refine ⟨mkTick enc now s.nextId p, ?_, rfl⟩
    simp only [rowsFor, List.filter_append, hf, List.nil_append]
    simp [natKey_mkTick]
  case _ r rest hf =>
    have hrest : rest = [] := rowsFor_tail_nil (encKey enc p) s hU r rest hf
    have hcomm := filter_map_comm (fun t => if t.id = r.id then setVals p t else t)
      (fun t => decide (natKey t = encKey enc p))
      (by intro t; by_cases ht : t.id = r.id <;> simp [ht, natKey_setVals]) s.rows
    refine ⟨setVals p r, ?_, rfl⟩
    show (s.rows.map _).filter _ = _
    rw [hcomm, show s.rows.filter (fun t => decide (natKey t = encKey enc p)) = r :: rest from hf,
        hrest]
    simp

/-- C2. Upsert idempotence: from any store that satisfies the natural-key
uniqueness invariant, two successive upserts of points sharing a natural
key (through the check-then-insert-or-update loop of `fetchStockData` /
get_latest_prices' `upsertStockTicks`, any storage interval encoding)
leave exactly one stored row for that natural key, and that row carries
the open, high, low, close and volume values of the second upsert. -/
theorem upsert_idempotence (enc : String → String) (now1 now2 : Int) (p1 p2 : TickPoint)
    (s : TickStore) (hU : UniqueKeys s)
    (_hsym : p1.symbol = p2.symbol) (_hts : p1.timestamp = p2.timestamp)
    (_hint : p1.interval = p2.interval) :
    ∃ t, rowsFor (encKey enc p2) (upsertPoint enc now2 p2 (upsertPoint enc now1 p1 s)) = [t]
      ∧ ohlcvOf t = pointVals p2 :=
  upsertPoint_rowsFor enc now2 p2 _ (uniqueKeys_upsertPoint enc now1 p1 s hU)

/-- Witness for C2: two concrete upserts of the AAPL/100/"1m" key into the
empty store leave one row holding the second upsert's OHLCV values. -/
theorem upsert_idempotence_witness :
    ∃ t, rowsFor (encKey (fun i => i) ⟨"AAPL", 100, 20, 25, 15, 22, 500, "1m"⟩)
        (upsertPoint (fun i => i) 8 ⟨"AAPL", 100, 20, 25, 15, 22, 500, "1m"⟩
          (upsertPoint (fun i => i) 7 ⟨"AAPL", 100, 10, 12, 9, 11, 300, "1m"⟩
            { rows := [], nextId := 1 })) = [t]
      ∧ ohlcvOf t = pointVals ⟨"AAPL", 100, 20, 25, 15, 22, 500, "1m"⟩ :=
  upsert_idempotence (fun i => i) 7 8 ⟨"AAPL", 100, 10, 12, 9, 11, 300, "1m"⟩
    ⟨"AAPL", 100, 20, 25, 15, 22, 500, "1m"⟩ { rows := [], nextId := 1 }
    (by decide) (by decide) (by decide) (by decide)

/-- C9. Interval round-trip: for every interval token of the closed enum
except "60m" and "1h", decoding the encoding yields the token back, for
each translation-table pair used at the storage boundary: the
convertIntervalToPostgres/convertIntervalFromPostgres pair of the
historical handler, the reverseIntervalMapping/intervalMapping pair of
the latest-prices handler, and the raw-store/normalizeInterval pair of
the batch handler (whose inserts store the token unchanged). -/
theorem interval_round_trip (t : String) (hmem : t ∈ intervalTokens)
    (h60 : t ≠ "60m") (h1h : t ≠ "1h") :
    convertIntervalFromPostgres (convertIntervalToPostgres t) = t
    ∧ intervalMappingGet (reverseIntervalMapping t) = t
    ∧ normalizeInterval t = t := by
  have hall : ∀ x ∈ intervalTokens, x ≠ "60m" → x ≠ "1h" →
      convertIntervalFromPostgres (convertIntervalToPostgres x) = x
      ∧ intervalMappingGet (reverseIntervalMapping x) = x
      ∧ normalizeInterval x = x := by decide
  exact hall t hmem h60 h1h

/-- Witness for C9: the round-trip theorem applied to the "5m" token. -/
theorem interval_round_trip_witness :
    convertIntervalFromPostgres (convertIntervalToPostgres "5m") = "5m"
    ∧ intervalMappingGet (reverseIntervalMapping "5m") = "5m"
    ∧ normalizeInterval "5m" = "5m" :=
  interval_round_trip "5m" (by decide) (by decide) (by decide)

/-- C3 (code bug): on the store prepared by the handler's own test suite —
three rows stored with the raw interval token "5m" and one with "1m" —
`getHistoricalData` queried with interval "5m" returns no rows at all
(likewise with the symbol filter), not the 3 (resp. 2) rows the spec and
tests require: the handler compares the stored raw token against the
`convertIntervalToPostgres` encoding "00:05:00", which no write path ever
stores. -/
theorem historical_query_interval_bug :
    historicalTestStore.rows.countP (fun t => t.interval = "5m") = 3
    ∧ getHistoricalData
        { symbol := none, interval := "5m", startDate := none,
          endDate := none, limit := 100 } historicalTestStore = []
    ∧ getHistoricalData
        { symbol := some "AAPL", interval := "5m", startDate := none,
          endDate := none, limit := 100 } historicalTestStore = []
    ∧ getHistoricalData
        { symbol := none, interval := "5m", startDate := some (-32),
          endDate := some (-22), limit := 100 } historicalTestStore = [] := by
  decide

/-- C8 (code bug): on the same store and the same filter input,
`getChartData` projects the two stored AAPL "5m" rows while
`getHistoricalData` returns none, because only the historical handler
encodes the interval before filtering; the projected point sequence is
therefore not the mapped historical result. -/
theorem chart_vs_history_divergence :
    ((getChartData [] 0
        { symbol := some "AAPL", interval := "5m", startDate := none,
          endDate := none, limit := 100 } historicalTestStore).1.data.length = 2)
    ∧ ((getHistoricalData
        { symbol := some "AAPL", interval := "5m", startDate := none,
          endDate := none, limit := 100 } historicalTestStore).length = 0)
    ∧ (getChartData [] 0
        { symbol := some "AAPL", interval := "5m", startDate := none,
          endDate := none, limit := 100 } historicalTestStore).1.data
      ≠ (getHistoricalData
          { symbol := some "AAPL", interval := "5m", startDate := none,
            endDate := none, limit := 100 } historicalTestStore).map toCandle := by
  refine ⟨by decide, by decide, by decide⟩

/-- C6 (code bug): the schema declares `stock_ticks_unique_idx` with
`index(...)`, which is non-unique, so a second insert of an already
present natural key does not raise any constraint violation: it succeeds
and leaves two rows for the key (exactly what the chart fallback's bare
inserts would produce), contradicting the documented unique constraint. -/
theorem insert_duplicate_no_violation :
    (rowsFor ("AAPL", 100, "1m")
      (insertRow 1 ⟨"AAPL", 100, 20, 25, 15, 22, 500, "1m"⟩
        (insertRow 0 ⟨"AAPL", 100, 10, 12, 9, 11, 300, "1m"⟩
          { rows := [], nextId := 1 }))).length = 2 := by decide

theorem batchUpsertLoop_filter (fails : TickPoint → Bool) (now : Int)
    (ps : List TickPoint) (s : TickStore) :
    batchUpsertLoop fails now ps s
      = batchUpsertLoop (fun _ => false) now (ps.filter (fun p => !fails p)) s := by
  induction ps generalizing s with
  | nil => rfl
  | cons p ps ih =>
    by_cases h : fails p
    · simp [batchUpsertLoop, h, List.filter_cons, ih]
    · simp [batchUpsertLoop, h, List.filter_cons, ih]

theorem refreshUpsertLoop_error_of_fail (fails : TickPoint → Bool) (now : Int)
    (ps : List TickPoint) (s : TickStore) (p : TickPoint) (hp : p ∈ ps)
    (hf : fails p = true) : refreshUpsertLoop fails now ps s = .error () := by
  induction ps generalizing s with
  | nil => cases hp
  | cons q qs ih =>
    by_cases hq : fails q = true
    · simp [refreshUpsertLoop, hq]
    · rcases List.mem_cons.mp hp with rfl | hmem
      · exact absurd hf hq
      · have hrec := ih (upsertPoint reverseIntervalMapping now q s) hmem
        simp [refreshUpsertLoop, hq, hrec]

/-- C5 (amended). Per-point failure policy of the upsert loops: in the
batch path (`fetchStockDataForSymbol`), a failing single-row upsert is
caught and skipped and the run is exactly the failure-free run over the
non-failing points, so every remaining point is still processed and the
successfully stored ticks are returned; in the `getLatestPrices` refresh
upsert, by contrast, the catch block rethrows, so any failing point makes
the whole loop return the error to its caller. -/
theorem per_point_failure_policy (fails : TickPoint → Bool) (now : Int)
    (ps : List TickPoint) (s : TickStore) :
    (batchUpsertLoop fails now ps s
      = batchUpsertLoop (fun _ => false) now (ps.filter (fun p => !fails p)) s)
    ∧ (∀ p ∈ ps, fails p = true → refreshUpsertLoop fails now ps s = .error ()) :=
  ⟨batchUpsertLoop_filter fails now ps s,
   fun p hp hf => refreshUpsertLoop_error_of_fail fails now ps s p hp hf⟩

/-- Witness for C5: with a concrete two-point batch whose first point
fails, the batch loop runs exactly as the failure-free loop on the second
point, while the refresh loop returns the error. -/
theorem per_point_failure_policy_witness :
    (batchUpsertLoop (fun p => p.symbol = "BAD") 0
        [⟨"BAD", 1, 1, 1, 1, 1, 1, "1m"⟩, ⟨"AAPL", 2, 3, 4, 2, 3, 9, "1m"⟩]
        { rows := [], nextId := 1 }
      = batchUpsertLoop (fun _ => false) 0
          [⟨"AAPL", 2, 3, 4, 2, 3, 9, "1m"⟩] { rows := [], nextId := 1 })
    ∧ refreshUpsertLoop (fun p => p.symbol = "BAD") 0
        [⟨"BAD", 1, 1, 1, 1, 1, 1, "1m"⟩, ⟨"AAPL", 2, 3, 4, 2, 3, 9, "1m"⟩]
        { rows := [], nextId := 1 } = .error () :=
  ⟨(per_point_failure_policy (fun p => p.symbol = "BAD") 0
      [⟨"BAD", 1, 1, 1, 1, 1, 1, "1m"⟩, ⟨"AAPL", 2, 3, 4, 2, 3, 9, "1m"⟩]
      { rows := [], nextId := 1 }).1.trans (by decide),
   (per_point_failure_policy (fun p => p.symbol = "BAD") 0
      [⟨"BAD", 1, 1, 1, 1, 1, 1, "1m"⟩, ⟨"AAPL", 2, 3, 4, 2, 3, 9, "1m"⟩]
      { rows := [], nextId := 1 }).2
     ⟨"BAD", 1, 1, 1, 1, 1, 1, "1m"⟩ (by decide) (by decide)⟩

/-- Counterexample for C5: in the `getLatestPrices` refresh upsert, a
failure on the first of two points is propagated to the caller as an
error instead of being skipped, and the second point is never stored. -/
theorem per_point_failure_skip_counterexample :
    refreshUpsertLoop (fun p => p.symbol = "FAIL") 0
      [⟨"FAIL", 1, 1, 1, 1, 1, 1, "1m"⟩, ⟨"AAPL", 2, 3, 4, 2, 3, 9, "1m"⟩]
      { rows := [], nextId := 1 } = .error () := rfl

/-- C7. Chart fallback: when `getChartData` is called with a symbol and
the range query finds zero rows, exactly one provider fetch is issued,
the fetched points are upserted, and the projection is re-run once over
the updated store; when the provider returns an empty sequence, the
response is the requested symbol with an empty point list and the store
is unchanged (and still only the one provider call is made). -/
theorem chart_fallback (prov : List YahooFinanceData) (now : Int)
    (inp : GetHistoricalDataInput) (s : TickStore) (sym : String)
    (hsym : inp.symbol = some sym) (hempty : selectChart inp s = []) :
    (getChartData prov now inp s).2.2 = 1
    ∧ (getChartData prov now inp s).2.1
        = chartUpsertTicks now (transformYahooData prov sym inp.interval) s
    ∧ (getChartData prov now inp s).1
        = { symbol := sym, interval := inp.interval,
            data := (selectChart inp
              (chartUpsertTicks now (transformYahooData prov sym inp.interval) s)).map toCandle }
    ∧ (prov = [] →
        (getChartData prov now inp s).1
          = { symbol := sym, interval := inp.interval, data := [] }
        ∧ (getChartData prov now inp s).2.1 = s) := by
  have hred : getChartData prov now inp s
      = ({ symbol := sym, interval := inp.interval,
           data := (selectChart inp
             (chartUpsertTicks now (transformYahooData prov sym inp.interval) s)).map toCandle },
         chartUpsertTicks now (transformYahooData prov sym inp.interval) s, 1) := by
    unfold getChartData
    rw [hempty, hsym]
  refine ⟨by rw [hred], by rw [hred], by rw [hred], ?_⟩
  intro hprov
  subst hprov
  have htrans : transformYahooData [] sym inp.interval = [] := rfl
  have hup : chartUpsertTicks now [] s = s := rfl
  rw [hred, htrans, hup, hempty]
  exact ⟨rfl, rfl⟩

/-- Witness for C7: the fallback theorem applied to the empty store, an
AAPL/"1m" query and an empty provider response. -/
theorem chart_fallback_witness :
    (getChartData [] 0
        { symbol := some "AAPL", interval := "1m", startDate := none,
          endDate := none, limit := 100 } { rows := [], nextId := 1 }).2.2 = 1
    ∧ ((getChartData [] 0
        { symbol := some "AAPL", interval := "1m", startDate := none,
          endDate := none, limit := 100 } { rows := [], nextId := 1 }).1
      = { symbol := "AAPL", interval := "1m", data := [] }) :=
  ⟨(chart_fallback [] 0
      { symbol := some "AAPL", interval := "1m", startDate := none,
        endDate := none, limit := 100 } { rows := [], nextId := 1 } "AAPL" rfl (by decide)).1,
   ((chart_fallback [] 0
      { symbol := some "AAPL", interval := "1m", startDate := none,
        endDate := none, limit := 100 } { rows := [], nextId := 1 } "AAPL" rfl (by decide)).2.2.2
     rfl).1⟩

/-- C10 (amended). Store-error propagation: a store-level failure in the
select of `getHistoricalData`, in the aggregation query of
`getLatestPrices`, in any single-row upsert of `fetchStockData`'s loop,
or in the main select of `getChartData`, aborts the operation and is
rethrown to the caller; the two exceptions in the code are the
single-symbol fallback of `getChartData`, whose catch converts a store
failure during the re-query into an empty-point-list success response,
and the batch loop of `fetchStockDataForSymbol`, whose per-point catch
swallows even store-level failures and continues with the remaining
points. -/
theorem store_error_propagation (e : StoreErr)
    (qr : Except StoreErr (List StockTick)) (inp : GetHistoricalDataInput)
    (res : TickPoint → Except StoreErr StockTick) (p : TickPoint) (ps : List TickPoint)
    (sym intv : String) (sd ed : Option Int) (lim : Nat)
    (fails : TickPoint → Bool) (now : Int) (s : TickStore) :
    getHistoricalDataE (.error e) = .error e
    ∧ getLatestPricesE (.error e) = .error e
    ∧ (res p = .error e → fetchUpsertLoopE res (p :: ps) = .error e)
    ∧ getChartDataE (.error e) qr inp = .error e
    ∧ getChartDataE (.ok []) (.error e) ⟨some sym, intv, sd, ed, lim⟩
        = .ok { symbol := sym, interval := intv, data := [] }
    ∧ (fails p = true → batchUpsertLoop fails now (p :: ps) s = batchUpsertLoop fails now ps s) := by
  refine ⟨rfl, rfl, ?_, rfl, rfl, ?_⟩
  · intro hres
    simp [fetchUpsertLoopE, hres]
  · intro hfail
    simp [batchUpsertLoop, hfail]

/-- Witness for C10: the propagation theorem at concrete arguments, with a
concrete failing single-row upsert and a concrete failing batch point. -/
theorem store_error_propagation_witness :
    fetchUpsertLoopE (fun _ => .error .connectivity)
      [⟨"AAPL", 1, 1, 1, 1, 1, 1, "1m"⟩, ⟨"AAPL", 2, 1, 1, 1, 1, 1, "1m"⟩]
      = .error .connectivity
    ∧ getChartDataE (.ok []) (.error .connectivity)
        ⟨some "AAPL", "1m", none, none, 100⟩
        = .ok { symbol := "AAPL", interval := "1m", data := [] }
    ∧ batchUpsertLoop (fun p => p.symbol = "BAD") 3
        [⟨"BAD", 1, 1, 1, 1, 1, 1, "1m"⟩] { rows := [], nextId := 1 }
      = batchUpsertLoop (fun p => p.symbol = "BAD") 3 [] { rows := [], nextId := 1 } :=
  ⟨(store_error_propagation .connectivity (.ok []) ⟨none, "1m", none, none, 100⟩
      (fun _ => .error .connectivity) ⟨"AAPL", 1, 1, 1, 1, 1, 1, "1m"⟩
      [⟨"AAPL", 2, 1, 1, 1, 1, 1, "1m"⟩] "AAPL" "1m" none none 100
      (fun p => p.symbol = "BAD") 3 { rows := [], nextId := 1 }).2.2.1 rfl,
   (store_error_propagation .connectivity (.ok []) ⟨none, "1m", none, none, 100⟩
      (fun _ => .error .connectivity) ⟨"BAD", 1, 1, 1, 1, 1, 1, "1m"⟩ []
      "AAPL" "1m" none none 100
      (fun p => p.symbol = "BAD") 3 { rows := [], nextId := 1 }).2.2.2.2.1,
   (store_error_propagation .connectivity (.ok []) ⟨none, "1m", none, none, 100⟩
      (fun _ => .error .connectivity) ⟨"BAD", 1, 1, 1, 1, 1, 1, "1m"⟩ []
      "AAPL" "1m" none none 100
      (fun p => p.symbol = "BAD") 3 { rows := [], nextId := 1 }).2.2.2.2.2 (by decide)⟩

/-- Counterexample for C10: a store failure hitting the re-query inside
`getChartData`'s single-symbol fallback is not propagated: the handler
answers with an ordinary empty-point-list success response. -/
theorem store_error_swallowed_counterexample :
    getChartDataE (.ok []) (.error .connectivity)
      ⟨some "AAPL", "1m", none, none, 100⟩
      = .ok { symbol := "AAPL", interval := "1m", data := [] } := rfl

theorem maxIntOf_spec (l : List Int) (hl : l ≠ []) :
    ∃ m, maxIntOf l = some m ∧ m ∈ l ∧ ∀ x ∈ l, x ≤ m := by
  induction l with
  | nil => exact absurd rfl hl
  | cons a l ih =>
    cases l with
    | nil =>
      refine ⟨a, rfl, List.mem_singleton_self a, ?_⟩
      intro x hx
      rw [List.mem_singleton] at hx
      exact le_of_eq hx
    | cons b l2 =>
      obtain ⟨m, hm, hmem, hub⟩ := ih (by simp)
      refine ⟨max a m, ?_, ?_, ?_⟩
      · show (match maxIntOf (b :: l2) with
          | none => some a
          | some m' => some (max a m')) = some (max a m)
        rw [hm]
      · rcases le_total a m with h | h
        · rw [max_eq_right h]; exact List.mem_cons_of_mem a hmem
        · rw [max_eq_left h]; exact List.mem_cons_self a _
      · intro x hx
        rcases List.mem_cons.mp hx with rfl | hx2
        · exact le_max_left _ _
        · exact le_trans (hub x hx2) (le_max_right _ _)

theorem mem_insertByTsDesc (t a : StockTick) (l : List StockTick) :
    a ∈ insertByTsDesc t l ↔ a = t ∨ a ∈ l := by
  induction l with
  | nil => simp [insertByTsDesc]
  | cons x xs ih =>
    by_cases h : t.timestamp ≤ x.timestamp
    · rw [show insertByTsDesc t (x :: xs)
          = if t.timestamp ≤ x.timestamp then x :: insertByTsDesc t xs
            else t :: x :: xs from rfl, if_pos h]
      rw [List.mem_cons, ih, List.mem_cons]
      tauto
    · rw [show insertByTsDesc t (x :: xs)
          = if t.timestamp ≤ x.timestamp then x :: insertByTsDesc t xs
            else t :: x :: xs from rfl, if_neg h]
      rw [List.mem_cons, List.mem_cons]

theorem sorted_insertByTsDesc (t : StockTick) (l : List StockTick)
    (h : l.Pairwise (fun a b => b.timestamp ≤ a.timestamp)) :
    (insertByTsDesc t l).Pairwise (fun a b => b.timestamp ≤ a.timestamp) := by
  induction l with
  | nil => simp [insertByTsDesc]
  | cons x xs ih =>
    rw [List.pairwise_cons] at h
    obtain ⟨hx, hxs⟩ := h
    by_cases hc : t.timestamp ≤ x.timestamp
    · rw [show insertByTsDesc t (x :: xs)
          = if t.timestamp ≤ x.timestamp then x :: insertByTsDesc t xs
            else t :: x :: xs from rfl, if_pos hc]
      refine List.pairwise_cons.mpr ⟨?_, ih hxs⟩
      intro b hb
      rcases (mem_insertByTsDesc t b xs).mp hb with rfl | hbx
      · exact hc
      · exact hx b hbx
    · rw [show insertByTsDesc t (x :: xs)
          = if t.timestamp ≤ x.timestamp then x :: insertByTsDesc t xs
            else t :: x :: xs from rfl, if_neg hc]
      refine List.pairwise_cons.mpr ⟨?_, List.pairwise_cons.mpr ⟨hx, hxs⟩⟩
      intro b hb
      rcases List.mem_cons.mp hb with rfl | hbx
      · exact le_of_not_le hc
      · exact le_trans (hx b hbx) (le_of_not_le hc)

theorem mem_sortByTsDesc (a : StockTick) (l : List StockTick) :
    a ∈ sortByTsDesc l ↔ a ∈ l := by
  induction l with
  | nil => simp [sortByTsDesc]
  | cons x xs ih =>
    show a ∈ insertByTsDesc x (sortByTsDesc xs) ↔ _
    rw [mem_insertByTsDesc, ih, List.mem_cons]

theorem sorted_sortByTsDesc (l : List StockTick) :
    (sortByTsDesc l).Pairwise (fun a b => b.timestamp ≤ a.timestamp) := by
  induction l with
  | nil => simp [sortByTsDesc]
  | cons x xs ih => exact sorted_insertByTsDesc x (sortByTsDesc xs) ih

theorem latest_filter_mem_iff (s : TickStore) (t : StockTick) :
    t ∈ s.rows.filter (fun u => maxTsFor u.symbol s.rows = some u.timestamp)
      ↔ IsLatestFor s t := by
  rw [List.mem_filter]
  simp only [decide_eq_true_eq]
  constructor
  · rintro ⟨hmem, hmax⟩
    refine ⟨hmem, ?_⟩
    intro u hu husym
    have hts_mem : t.timestamp
        ∈ (s.rows.filter (fun v => v.symbol = t.symbol)).map (fun v => v.timestamp) :=
      List.mem_map.mpr ⟨t, List.mem_filter.mpr ⟨hmem, by simp⟩, rfl⟩
    obtain ⟨m, hm, _, hub⟩ := maxIntOf_spec _ (List.ne_nil_of_mem hts_mem)
    unfold maxTsFor at hmax
    rw [hm] at hmax
    have hmt : m = t.timestamp := Option.some.inj hmax
    have hu_ts : u.timestamp
        ∈ (s.rows.filter (fun v => v.symbol = t.symbol)).map (fun v => v.timestamp) :=
      List.mem_map.mpr ⟨u, List.mem_filter.mpr ⟨hu, by simp [husym]⟩, rfl⟩
    have := hub _ hu_ts
    rwa [hmt] at this
  · rintro ⟨hmem, hub⟩
    refine ⟨hmem, ?_⟩
    have hts_mem : t.timestamp
        ∈ (s.rows.filter (fun v => v.symbol = t.symbol)).map (fun v => v.timestamp) :=
      List.mem_map.mpr ⟨t, List.mem_filter.mpr ⟨hmem, by simp⟩, rfl⟩
    obtain ⟨m, hm, hmm, hub2⟩ := maxIntOf_spec _ (List.ne_nil_of_mem hts_mem)
    unfold maxTsFor
    rw [hm]
    have h1 : t.timestamp ≤ m := hub2 _ hts_mem
    obtain ⟨v, hv, hvts⟩ := List.mem_map.mp hmm
    obtain ⟨hvrows, hvsym'⟩ := List.mem_filter.mp hv
    have hvsym : v.symbol = t.symbol := by simpa using hvsym'
    have h2 : m ≤ t.timestamp := hvts ▸ hub v hvrows hvsym
    rw [le_antisymm h2 h1]

theorem mem_getLatestPricesRows (s : TickStore) (t : StockTick) :
    t ∈ getLatestPricesRows s ↔ IsLatestFor s t := by
  unfold getLatestPricesRows
  rw [mem_sortByTsDesc]
  exact latest_filter_mem_iff s t

/-- C4 (amended). Latest-price aggregation: `getLatestPrices` with no
refresh returns exactly the decoded rows that attain their symbol's
maximum timestamp across all intervals, ordered by timestamp descending;
and for every store in which each symbol's maximum timestamp is attained
by a single row — in particular whenever no symbol holds two rows with
the same timestamp under different intervals — the result has exactly one
row per distinct symbol present in storage.  (When a symbol has several
rows sharing its maximum timestamp, the join returns one result row per
such stored row, so "one row per symbol" fails; see the
counterexample.) -/
theorem latest_price_aggregation (s : TickStore)
    (hno : ∀ t ∈ s.rows, ∀ u ∈ s.rows,
      IsLatestFor s t → IsLatestFor s u → t.symbol = u.symbol → t = u) :
    (∀ t, t ∈ getLatestPrices s ↔ ∃ u, IsLatestFor s u ∧ t = decodeLatestTick u)
    ∧ (getLatestPrices s).Pairwise (fun a b => b.timestamp ≤ a.timestamp)
    ∧ (∀ sym, (∃ t ∈ s.rows, t.symbol = sym) →
        ∃! t, t ∈ getLatestPrices s ∧ t.symbol = sym) := by
  have hmem : ∀ t, t ∈ getLatestPrices s ↔ ∃ u, IsLatestFor s u ∧ t = decodeLatestTick u := by
    intro t
    unfold getLatestPrices
    rw [List.mem_map]
    constructor
    · rintro ⟨u, hu, rfl⟩
      exact ⟨u, (mem_getLatestPricesRows s u).mp hu, rfl⟩
    · rintro ⟨u, hu, rfl⟩
      exact ⟨u, (mem_getLatestPricesRows s u).mpr hu, rfl⟩
  refine ⟨hmem, ?_, ?_⟩
  · unfold getLatestPrices
    rw [List.pairwise_map]
    exact sorted_sortByTsDesc _
  · rintro sym ⟨t0, ht0, ht0sym⟩
    have hts_mem : t0.timestamp
        ∈ (s.rows.filter (fun v => v.symbol = sym)).map (fun v => v.timestamp) :=
      List.mem_map.mpr ⟨t0, List.mem_filter.mpr ⟨ht0, by simp [ht0sym]⟩, rfl⟩
    obtain ⟨m, hm, hmm, hub⟩ := maxIntOf_spec _ (List.ne_nil_of_mem hts_mem)
    obtain ⟨v, hv, hvts⟩ := List.mem_map.mp hmm
    obtain ⟨hvrows, hvsym'⟩ := List.mem_filter.mp hv
    have hvsym : v.symbol = sym := by simpa using hvsym'
    have hvlatest : IsLatestFor s v := by
      refine ⟨hvrows, ?_⟩
      intro u hu husym
      have hu_ts : u.timestamp
          ∈ (s.rows.filter (fun w => w.symbol = sym)).map (fun w => w.timestamp) :=
        List.mem_map.mpr ⟨u, List.mem_filter.mpr ⟨hu, by simp [husym.trans hvsym]⟩, rfl⟩
      have := hub _ hu_ts
      rw [hvts]
      exact this
    refine ⟨decodeLatestTick v, ⟨(hmem _).mpr ⟨v, hvlatest, rfl⟩, hvsym⟩, ?_⟩
    rintro y ⟨hy, hysym⟩
    obtain ⟨u, hulatest, rfl⟩ := (hmem y).mp hy
    have husym : u.symbol = sym := hysym
    have heq : u = v := hno u hulatest.1 v hvlatest.1 hulatest hvlatest (husym.trans hvsym.symm)
    rw [heq]

/-- Witness for C4: the spec's concrete scenario — AAPL and META ticks 60
minutes back and at time 0 — where the aggregation theorem yields the
unique AAPL row, and the full result has exactly the 2 rows. -/
theorem latest_price_aggregation_witness :
    ((getLatestPrices latestScenarioStore).length = 2)
    ∧ ((getLatestPrices latestScenarioStore).map (fun t => t.timestamp) = [0, 0])
    ∧ (∃! t, t ∈ getLatestPrices latestScenarioStore ∧ t.symbol = "AAPL") :=
  ⟨by decide, by decide,
   (latest_price_aggregation latestScenarioStore (by decide)).2.2 "AAPL" (by decide)⟩

/-- Counterexample for C4: two AAPL rows share the maximum timestamp 100
under intervals "1m" and "5m"; `getLatestPrices` returns both, so it does
not yield one row per distinct symbol. -/
theorem latest_price_one_per_symbol_counterexample :
    (∃ t ∈ tieStore.rows, t.symbol = "AAPL")
    ∧ ¬ ∃! t, t ∈ getLatestPrices tieStore ∧ t.symbol = "AAPL" := by
  refine ⟨⟨{ id := 1, symbol := "AAPL", timestamp := 100, open_ := 10, high := 20,
             low := 5, close := 15, volume := 1000, interval := "1m", created_at := 0 },
           by decide, rfl⟩, ?_⟩
  rintro ⟨t, -, huniq⟩
  have h1 := huniq
    { id := 1, symbol := "AAPL", timestamp := 100, open_ := 10, high := 20,
      low := 5, close := 15, volume := 1000, interval := "1m", created_at := 0 }
    (by decide)
  have h2 := huniq
    { id := 2, symbol := "AAPL", timestamp := 100, open_ := 11, high := 21,
      low := 6, close := 16, volume := 1100, interval := "5m", created_at := 0 }
    (by decide)
  have h12 := h1.trans h2.symm
  exact absurd h12 (by decide)
